import Mathlib

/-!
Verification of the near-token-factory contract
(src/near-token-factory/src/lib.rs).

The contract state, its entry points and the pure helper functions
(hex codec between ERC-20 addresses and NEAR account ids, the manual
ABI encoding of the withdraw call, the Keccak-256 selector) are embedded
as executable Lean definitions.  Account ids are modelled as lists of
characters, byte strings as lists of naturals below 256, and the NEAR
runtime environment (predecessor / current account id) as an explicit
record passed to each entry point.  Entry points return
`Except ContractError`; a panic in the contract corresponds to an
`error` result, and the runtime discards all state changes of a
panicking call, which the `step` function below makes explicit.
-/

namespace NTF

/-! ### Hex codec

The contract uses the `hex` crate: lowercase hex display of a 20-byte
address, and `hex::decode_to_slice` (accepting both cases) on the first
40 bytes of an account id. -/

/-- Lowercase hex digit for a value below 16, as produced by the hex
encoding of an address. -/
def hexDigitChar (n : Nat) : Char :=
  if n < 10 then Char.ofNat (48 + n) else Char.ofNat (87 + n)

/-- Two lowercase hex digits of one byte, most significant first. -/
def hexEncodeByte (b : Nat) : List Char :=
  [hexDigitChar (b / 16), hexDigitChar (b % 16)]

/-- Lowercase hex encoding of a byte string. -/
def hexEncode (bs : List Nat) : List Char :=
  bs.flatMap hexEncodeByte

/-- Value of a hex digit, upper or lower case, as accepted by
`hex::decode_to_slice`; `none` on a non-hex character. -/
def hexDigitVal (c : Char) : Option Nat :=
  if 48 ≤ c.toNat ∧ c.toNat ≤ 57 then some (c.toNat - 48)
  else if 97 ≤ c.toNat ∧ c.toNat ≤ 102 then some (c.toNat - 87)
  else if 65 ≤ c.toNat ∧ c.toNat ≤ 70 then some (c.toNat - 55)
  else none

/-- Hex decoding of a character list, two digits per byte; `none` on an
odd length or a non-hex character, as `hex::decode_to_slice` fails
there. -/
def hexDecode : List Char → Option (List Nat)
  | [] => some []
  | [_] => none
  | c1 :: c2 :: rest =>
    match hexDigitVal c1, hexDigitVal c2, hexDecode rest with
    | some h, some l, some tail => some ((16 * h + l) :: tail)
    | _, _, _ => none

theorem hexEncode_length (bs : List Nat) : (hexEncode bs).length = 2 * bs.length := by
  induction bs with
  | nil => rfl
  | cons b t ih => simp [hexEncode, hexEncodeByte] at ih ⊢; omega

theorem hexDigitVal_hexDigitChar : ∀ n < 16, hexDigitVal (hexDigitChar n) = some n := by
  decide

theorem hexDecode_hexEncode (bs : List Nat) (h : ∀ b ∈ bs, b < 256) :
    hexDecode (hexEncode bs) = some bs := by
  induction bs with
  | nil => rfl
  | cons b t ih =>
    have hb : b < 256 := h b (List.mem_cons_self b t)
    have hhi : b / 16 < 16 := by omega
    have hlo : b % 16 < 16 := by omega
    have ht : hexDecode (hexEncode t) = some t :=
      ih (fun x hx => h x (List.mem_cons_of_mem b hx))
    have henc : hexEncode (b :: t) =
        hexDigitChar (b / 16) :: hexDigitChar (b % 16) :: hexEncode t := by
      simp [hexEncode, hexEncodeByte]
    rw [henc]
    simp only [hexDecode, hexDigitVal_hexDigitChar _ hhi, hexDigitVal_hexDigitChar _ hlo, ht]
    have : 16 * (b / 16) + b % 16 = b := by omega
    rw [this]

/-! ### Addresses and account ids -/

/-- NEAR runtime environment visible to the contract: the account id of
the direct caller (`env::predecessor_account_id`) and the contract's own
account id (`env::current_account_id`). -/
structure Env where
  predecessor_account_id : List Char
  current_account_id : List Char
deriving DecidableEq

/-- Modelled from the spec: the `Display` implementation of the 20-byte
`aurora_sdk::Address` type lives in the `near-token-common` crate, which
is not part of the sources here; per spec section 4.1 it
"lower-case-hex-encodes the 20 bytes". -/
def addressDisplay (a : List Nat) : List Char :=
  hexEncode a

/-- Rust `account_id_from_token_address`: the account id
`format!("\x7b\x7d.\x7b\x7d", address, env::current_account_id())`. -/
def account_id_from_token_address (env : Env) (address : List Nat) : List Char :=
  addressDisplay address ++ ('.' :: env.current_account_id)

/-- Rust `address_from_token_account_id`: hex-decode the first 40 bytes
of the account id into a 20-byte buffer.  The Rust code panics (slice
out of range, or `unwrap` on the decode error) when the id is shorter
than 40 bytes or those bytes are not hex; that is the `none` case. -/
def address_from_token_account_id (account_id : List Char) : Option (List Nat) :=
  if account_id.length < 40 then none
  else hexDecode (account_id.take 40)

/-- C1: for every valid 20-byte token address (bytes below 256), with any
factory identity, decoding the derived account identity recovers the
original address:
`address_from_token_account_id (account_id_from_token_address a) = a`. -/
theorem address_roundtrip (env : Env) (a : List Nat)
    (hlen : a.length = 20) (hbytes : ∀ b ∈ a, b < 256) :
    address_from_token_account_id (account_id_from_token_address env a) = some a := by
  have hx : (hexEncode a).length = 40 := by rw [hexEncode_length, hlen]
  have hfull : (account_id_from_token_address env a).length =
      40 + (1 + env.current_account_id.length) := by
    simp [account_id_from_token_address, addressDisplay, hx]; omega
  have htake : (account_id_from_token_address env a).take 40 = hexEncode a := by
    simp only [account_id_from_token_address, addressDisplay]
    rw [List.take_append_of_le_length (by omega), List.take_of_length_le (by omega)]
  rw [address_from_token_account_id, if_neg (by omega), htake,
    hexDecode_hexEncode a hbytes]

/-- C1 witness: the round trip at the concrete address 1,2,...,20. -/
theorem address_roundtrip_witness :
    ((List.range 20).map Nat.succ).length = 20 ∧
    (∀ b ∈ (List.range 20).map Nat.succ, b < 256) ∧
    address_from_token_account_id
      (account_id_from_token_address
        ⟨[], ['f', 'a', 'c', 't', 'o', 'r', 'y']⟩
        ((List.range 20).map Nat.succ)) =
      some ((List.range 20).map Nat.succ) :=
  ⟨by decide, by decide,
    address_roundtrip ⟨[], ['f', 'a', 'c', 't', 'o', 'r', 'y']⟩
      ((List.range 20).map Nat.succ) (by decide) (by decide)⟩

/-! ### Manual ABI encoding of the withdraw call -/

/-- Rust constant `WITHDRAW_SELECTOR`. -/
def WITHDRAW_SELECTOR : List Nat := [0xd9, 0xca, 0xed, 0x12]

/-- Big-endian bytes of a `u128`, as produced by `u128::to_be_bytes`:
byte `i` is the coefficient of `256 ^ (15 - i)`. -/
def u128_to_be_bytes (amount : Nat) : List Nat :=
  (List.range 16).map (fun i => amount / 256 ^ (15 - i) % 256)

/-- Overwrite of `buffer[off..off + data.length]` with `data`, the
effect of `copy_from_slice` on a slice of the buffer. -/
def writeSlice (buf : List Nat) (off : Nat) (data : List Nat) : List Nat :=
  buf.take off ++ data ++ buf.drop (off + data.length)

/-- Rust `abi_encode_withdraw`: a 100-byte zeroed buffer with the
selector at 0, the token address at 16, the receiver address at 48 and
the big-endian amount at 84. -/
def abi_encode_withdraw (token_id receiver_id : List Nat) (amount : Nat) : List Nat :=
  writeSlice
    (writeSlice
      (writeSlice
        (writeSlice (List.replicate 100 0) 0 WITHDRAW_SELECTOR)
        16 token_id)
      48 receiver_id)
    84 (u128_to_be_bytes amount)

/-- Bytes `[a, b)` of a byte string. -/
def slice (l : List Nat) (a b : Nat) : List Nat :=
  (l.drop a).take (b - a)

/-- Big-endian value of a byte string. -/
def beBytesToNat (l : List Nat) : Nat :=
  l.foldl (fun acc b => 256 * acc + b) 0

/-- Recursive form of the big-endian byte decomposition. -/
def beBytesAux : Nat → Nat → List Nat
  | 0, _ => []
  | k + 1, a => a / 256 ^ k % 256 :: beBytesAux k a

theorem u128_to_be_bytes_eq_aux (a : Nat) : u128_to_be_bytes a = beBytesAux 16 a := by
  rfl

theorem beBytesAux_length (k a : Nat) : (beBytesAux k a).length = k := by
  induction k with
  | zero => rfl
  | succ k ih => simp [beBytesAux, ih]

theorem u128_to_be_bytes_length (a : Nat) : (u128_to_be_bytes a).length = 16 := by
  rw [u128_to_be_bytes_eq_aux, beBytesAux_length]

theorem foldl_beBytesAux (k a acc : Nat) :
    (beBytesAux k a).foldl (fun acc b => 256 * acc + b) acc =
      acc * 256 ^ k + a % 256 ^ k := by
  induction k generalizing acc with
  | zero => simp [beBytesAux, Nat.mod_one]
  | succ k ih =>
    have hsplit : a % 256 ^ (k + 1) = a % 256 ^ k + 256 ^ k * (a / 256 ^ k % 256) := by
      rw [pow_succ]
      exact Nat.mod_mul
    simp only [beBytesAux, List.foldl_cons, ih]
    rw [hsplit]; ring

theorem beBytesToNat_u128 (a : Nat) (h : a < 2 ^ 128) :
    beBytesToNat (u128_to_be_bytes a) = a := by
  rw [u128_to_be_bytes_eq_aux, beBytesToNat, foldl_beBytesAux]
  have h256 : (256 : Nat) ^ 16 = 2 ^ 128 := by norm_num
  rw [Nat.zero_mul, Nat.zero_add, h256, Nat.mod_eq_of_lt h]

theorem writeSlice_length (buf data : List Nat) (off : Nat)
    (h : off + data.length ≤ buf.length) :
    (writeSlice buf off data).length = buf.length := by
  simp [writeSlice]; omega

theorem slice_append_middle (p m s : List Nat) (a b : Nat)
    (ha : a = p.length) (hb : b = p.length + m.length) :
    slice (p ++ m ++ s) a b = m := by
  subst ha hb
  simp only [slice, List.append_assoc, List.drop_left]
  rw [show p.length + m.length - p.length = m.length by omega]
  exact List.take_left m s

theorem slice_writeSlice_at (buf data : List Nat) (off : Nat)
    (h : off ≤ buf.length) :
    slice (writeSlice buf off data) off (off + data.length) = data := by
  unfold writeSlice
  exact slice_append_middle _ _ _ _ _
    (by simp; omega) (by simp; omega)

theorem take_writeSlice (buf data : List Nat) (off : Nat) (h : off ≤ buf.length) :
    (writeSlice buf off data).take off = buf.take off := by
  unfold writeSlice
  rw [List.append_assoc, List.take_left' (by simp; omega)]

theorem drop_writeSlice (buf data : List Nat) (off : Nat)
    (h : off ≤ buf.length) :
    (writeSlice buf off data).drop (off + data.length) = buf.drop (off + data.length) := by
  unfold writeSlice
  rw [List.append_assoc, List.drop_append_eq_append_drop]
  have h1 : (buf.take off).length = off := by simp; omega
  rw [h1, List.drop_eq_nil_of_le (by omega), List.nil_append,
    show off + data.length - off = data.length by omega,
    List.drop_left' rfl]

theorem slice_congr_take (l l2 : List Nat) (n a b : Nat)
    (h : l.take n = l2.take n) (hb : b ≤ n) :
    slice l a b = slice l2 a b := by
  rcases le_or_lt b a with hab | hab
  · simp [slice, Nat.sub_eq_zero_of_le hab]
  · have key : ∀ m : List Nat, slice m a b = ((m.take n).drop a).take (b - a) := by
      intro m
      rw [List.drop_take, List.take_take, Nat.min_def, if_pos (by omega)]
      rfl
    rw [key l, key l2, h]

theorem slice_congr_drop (l l2 : List Nat) (n a b : Nat)
    (h : l.drop n = l2.drop n) (ha : n ≤ a) :
    slice l a b = slice l2 a b := by
  have key : ∀ m : List Nat, (m.drop n).drop (a - n) = m.drop a := by
    intro m
    rw [List.drop_drop]
    congr 1
    omega
  unfold slice
  rw [← key l, ← key l2, h]

theorem abi_layout_aux (z sel t r amt w1 w2 w3 out : List Nat)
    (hz : z.length = 100) (hsel : sel.length = 4) (ht : t.length = 20)
    (hr : r.length = 20) (hamt : amt.length = 16)
    (e1 : w1 = writeSlice z 0 sel) (e2 : w2 = writeSlice w1 16 t)
    (e3 : w3 = writeSlice w2 48 r) (e4 : out = writeSlice w3 84 amt) :
    out.length = 100 ∧ slice out 0 4 = sel ∧ slice out 16 36 = t ∧
    slice out 48 68 = r ∧ slice out 84 100 = amt ∧
    slice out 4 16 = slice z 4 16 ∧ slice out 36 48 = slice z 36 48 ∧
    slice out 68 84 = slice z 68 84 := by
  have h1 : w1.length = 100 := by
    rw [e1, writeSlice_length _ _ _ (by omega)]; exact hz
  have h2 : w2.length = 100 := by
    rw [e2, writeSlice_length _ _ _ (by omega)]; exact h1
  have h3 : w3.length = 100 := by
    rw [e3, writeSlice_length _ _ _ (by omega)]; exact h2
  have h4 : out.length = 100 := by
    rw [e4, writeSlice_length _ _ _ (by omega)]; exact h3
  have t3 : out.take 84 = w3.take 84 := by
    rw [e4]; exact take_writeSlice _ _ _ (by omega)
  have t2 : w3.take 48 = w2.take 48 := by
    rw [e3]; exact take_writeSlice _ _ _ (by omega)
  have t1 : w2.take 16 = w1.take 16 := by
    rw [e2]; exact take_writeSlice _ _ _ (by omega)
  have d1 : w1.drop 4 = z.drop 4 := by
    rw [e1]
    have := drop_writeSlice z sel 0 (by omega)
    rw [hsel] at this
    simpa using this
  have d2 : w2.drop 36 = w1.drop 36 := by
    rw [e2]
    have := drop_writeSlice w1 t 16 (by omega)
    rw [ht] at this
    simpa using this
  have d3 : w3.drop 68 = w2.drop 68 := by
    rw [e3]
    have := drop_writeSlice w2 r 48 (by omega)
    rw [hr] at this
    simpa using this
  refine ⟨h4, ?_, ?_, ?_, ?_, ?_, ?_, ?_⟩
  · rw [slice_congr_take out w3 84 0 4 t3 (by omega),
      slice_congr_take w3 w2 48 0 4 t2 (by omega),
      slice_congr_take w2 w1 16 0 4 t1 (by omega), e1]
    have := slice_writeSlice_at z sel 0 (by omega)
    rw [hsel] at this
    simpa using this
  · rw [slice_congr_take out w3 84 16 36 t3 (by omega),
      slice_congr_take w3 w2 48 16 36 t2 (by omega), e2]
    have := slice_writeSlice_at w1 t 16 (by omega)
    rw [ht] at this
    simpa using this
  · rw [slice_congr_take out w3 84 48 68 t3 (by omega), e3]
    have := slice_writeSlice_at w2 r 48 (by omega)
    rw [hr] at this
    simpa using this
  · rw [e4]
    have := slice_writeSlice_at w3 amt 84 (by omega)
    rw [hamt] at this
    simpa using this
  · rw [slice_congr_take out w3 84 4 16 t3 (by omega),
      slice_congr_take w3 w2 48 4 16 t2 (by omega),
      slice_congr_take w2 w1 16 4 16 t1 (by omega),
      slice_congr_drop w1 z 4 4 16 d1 (by omega)]
  · rw [slice_congr_take out w3 84 36 48 t3 (by omega),
      slice_congr_take w3 w2 48 36 48 t2 (by omega),
      slice_congr_drop w2 w1 36 36 48 d2 (by omega),
      slice_congr_drop w1 z 4 36 48 d1 (by omega)]
  · rw [slice_congr_take out w3 84 68 84 t3 (by omega),
      slice_congr_drop w3 w2 68 68 84 d3 (by omega),
      slice_congr_drop w2 w1 36 68 84 d2 (by omega),
      slice_congr_drop w1 z 4 68 84 d1 (by omega)]

/-- C2: for every 20-byte token address, 20-byte receiver address and
128-bit amount, `abi_encode_withdraw` returns exactly 100 bytes where
bytes `[0,4)` equal the pinned selector, bytes `[16,36)` equal the token
address, bytes `[48,68)` equal the receiver address, bytes `[84,100)`
equal the 16-byte big-endian encoding of the amount, and all remaining
bytes (`[4,16)`, `[36,48)`, `[68,84)`) are zero. -/
theorem abi_encode_withdraw_layout (t r : List Nat) (amount : Nat)
    (ht : t.length = 20) (hr : r.length = 20) (ha : amount < 2 ^ 128) :
    (abi_encode_withdraw t r amount).length = 100 ∧
    slice (abi_encode_withdraw t r amount) 0 4 = WITHDRAW_SELECTOR ∧
    slice (abi_encode_withdraw t r amount) 16 36 = t ∧
    slice (abi_encode_withdraw t r amount) 48 68 = r ∧
    slice (abi_encode_withdraw t r amount) 84 100 = u128_to_be_bytes amount ∧
    beBytesToNat (slice (abi_encode_withdraw t r amount) 84 100) = amount ∧
    slice (abi_encode_withdraw t r amount) 4 16 = List.replicate 12 0 ∧
    slice (abi_encode_withdraw t r amount) 36 48 = List.replicate 12 0 ∧
    slice (abi_encode_withdraw t r amount) 68 84 = List.replicate 16 0 := by
  obtain ⟨l100, lsel, lt, lr, lamt, lz1, lz2, lz3⟩ :=
    abi_layout_aux (List.replicate 100 0) WITHDRAW_SELECTOR t r
      (u128_to_be_bytes amount)
      (writeSlice (List.replicate 100 0) 0 WITHDRAW_SELECTOR)
      (writeSlice (writeSlice (List.replicate 100 0) 0 WITHDRAW_SELECTOR) 16 t)
      (writeSlice (writeSlice (writeSlice (List.replicate 100 0) 0 WITHDRAW_SELECTOR) 16 t) 48 r)
      (abi_encode_withdraw t r amount)
      (by simp) rfl ht hr (u128_to_be_bytes_length amount) rfl rfl rfl rfl
  refine ⟨l100, lsel, lt, lr, lamt, ?_, ?_, ?_, ?_⟩
  · rw [lamt]
    exact beBytesToNat_u128 amount ha
  · rw [lz1]; decide
  · rw [lz2]; decide
  · rw [lz3]; decide

/-- C2 witness: the layout at concrete addresses and amount. -/
theorem abi_encode_withdraw_layout_witness :
    (List.replicate 20 7).length = 20 ∧ (List.replicate 20 9).length = 20 ∧
    (500 : Nat) < 2 ^ 128 ∧
    slice (abi_encode_withdraw (List.replicate 20 7) (List.replicate 20 9) 500) 16 36 =
      List.replicate 20 7 :=
  ⟨by decide, by decide, by norm_num,
    (abi_encode_withdraw_layout (List.replicate 20 7) (List.replicate 20 9) 500
      (by decide) (by decide) (by norm_num)).2.2.1⟩

/-! ### Contract state and entry points -/

/-- Error taxonomy of the contract: each constructor corresponds to one
of the panic messages in the source (`ERR_ONLY_LOCKER`,
`ERR_BINARY_NOT_AVAILABLE`, the decode panic in
`address_from_token_account_id`, `ERR_INVALID_ACCOUNT`). -/
inductive ContractError where
  | Unauthorized
  | ArtifactUnavailable
  | MalformedCallerIdentity
  | IdentityTooLong
deriving DecidableEq

/-- Contract state: the fields of the Rust `Contract` struct.  The
`UnorderedMap` of tokens is modelled as an association list with unique
keys reachable from the operations; the `LazyOption` binary as an
`Option`. -/
structure TokenFactory where
  aurora : List Char
  token_binary : Option (List Nat)
  token_binary_version : Nat
  tokens : List (List Char × Nat)
  locker : List Nat
deriving DecidableEq

/-- Lookup in the token registry (`UnorderedMap::get`). -/
def mapGet (k : List Char) : List (List Char × Nat) → Option Nat
  | [] => none
  | (k2, v) :: rest => if k2 = k then some v else mapGet k rest

/-- Insert into the token registry (`UnorderedMap::insert`): replaces
the value when the key is present, appends otherwise. -/
def mapInsert (k : List Char) (v : Nat) : List (List Char × Nat) → List (List Char × Nat)
  | [] => [(k, v)]
  | (k2, v2) :: rest =>
    if k2 = k then (k2, v) :: rest else (k2, v2) :: mapInsert k v rest

/-- Number of registry entries stored under a key. -/
def countKey (k : List Char) : List (List Char × Nat) → Nat
  | [] => 0
  | (k2, _) :: rest => (if k2 = k then 1 else 0) + countKey k rest

/-- Promise dispatched by an entry point, reduced to the data that
identifies it: which receiver account, which batched actions. -/
inductive PromiseAction where
  /-- `create_account + deploy_contract + new + deposit` batch of
  `on_deposit` (first deposit of a token). -/
  | deployAndDeposit (account : List Char) (binary : List Nat)
      (receiver : List Char) (amount : Nat)
  /-- `create_account + deploy_contract + new` batch of `create_token`. -/
  | deployOnly (account : List Char) (binary : List Nat)
  /-- direct `deposit` call of `on_deposit` (token already deployed). -/
  | depositCall (account : List Char) (receiver : List Char) (amount : Nat)
  /-- `call` to the aurora engine carrying the encoded withdraw input. -/
  | auroraCall (aurora : List Char) (token : List Nat) (input : List Nat)
deriving DecidableEq

/-- Rust `locker_account_id`: `format!("\x7b\x7d.\x7b\x7d", locker, aurora)`. -/
def lockerAccountId (self : TokenFactory) : List Char :=
  addressDisplay self.locker ++ ('.' :: self.aurora)

/-- Rust `assert_locker`: require the predecessor to be the locker's
representative account, else panic with `ERR_ONLY_LOCKER`. -/
def assert_locker (env : Env) (self : TokenFactory) : Except ContractError Unit :=
  if env.predecessor_account_id = lockerAccountId self then .ok ()
  else .error .Unauthorized

/-- Rust `get_token_binary`: the stored binary, panicking with
`ERR_BINARY_NOT_AVAILABLE` when none is set. -/
def get_token_binary (self : TokenFactory) : Except ContractError (List Nat) :=
  match self.token_binary with
  | none => .error .ArtifactUnavailable
  | some binary => .ok binary

/-- Rust `new`: requires
`env::current_account_id().as_str().len() + 1 + 40 <= 63`
(`ERR_INVALID_ACCOUNT`), then builds the initial state. -/
def new (env : Env) (aurora : List Char) (locker : List Nat) :
    Except ContractError TokenFactory :=
  if env.current_account_id.length + 1 + 40 ≤ 63 then
    .ok { aurora := aurora, token_binary := none, token_binary_version := 0,
          tokens := [], locker := locker }
  else .error .IdentityTooLong

/-- Rust `set_token_binary`: `assert_self` (predecessor must be the
contract itself), then store the binary and bump the version. -/
def set_token_binary (env : Env) (self : TokenFactory) (binary : List Nat) :
    Except ContractError TokenFactory :=
  if env.predecessor_account_id = env.current_account_id then
    .ok { self with token_binary := some binary,
                    token_binary_version := self.token_binary_version + 1 }
  else .error .Unauthorized

/-- Rust `create_token`: locker-only; deploys the current binary in the
sub-account derived from the token address.  The contract state is
returned unchanged: the method never touches `self.tokens`. -/
def create_token (env : Env) (self : TokenFactory) (token_address : List Nat) :
    Except ContractError (TokenFactory × PromiseAction) :=
  match assert_locker env self with
  | .error e => .error e
  | .ok _ =>
    match get_token_binary self with
    | .error e => .error e
    | .ok binary =>
      .ok (self, .deployOnly (account_id_from_token_address env token_address) binary)

/-- Rust `on_deposit`: locker-only; if the registry has no entry for the
derived account id, fetch the binary, register the account at the
current version and dispatch the create+deploy+new+deposit batch;
otherwise dispatch a direct deposit call. -/
def on_deposit (env : Env) (self : TokenFactory) (token : List Nat)
    (receiver_id : List Char) (amount : Nat) :
    Except ContractError (TokenFactory × PromiseAction) :=
  match assert_locker env self with
  | .error e => .error e
  | .ok _ =>
    let token_account_id := account_id_from_token_address env token
    match mapGet token_account_id self.tokens with
    | none =>
      match get_token_binary self with
      | .error e => .error e
      | .ok binary =>
        .ok ({ self with
                 tokens := mapInsert token_account_id self.token_binary_version self.tokens },
             .deployAndDeposit token_account_id binary receiver_id amount)
    | some _ =>
      .ok (self, .depositCall token_account_id receiver_id amount)

/-- Rust `on_withdraw`: decode the predecessor account id into a token
address (panicking when malformed), ABI-encode the withdraw message and
dispatch it to the aurora engine.  No state is modified. -/
def on_withdraw (env : Env) (self : TokenFactory) (receiver_id : List Nat)
    (amount : Nat) : Except ContractError (TokenFactory × PromiseAction) :=
  match address_from_token_account_id env.predecessor_account_id with
  | none => .error .MalformedCallerIdentity
  | some token_id =>
    .ok (self, .auroraCall self.aurora token_id
      (abi_encode_withdraw token_id receiver_id amount))

/-- One entry-point invocation with its environment and arguments. -/
inductive Op where
  | opSetTokenBinary (env : Env) (binary : List Nat)
  | opCreateToken (env : Env) (token : List Nat)
  | opOnDeposit (env : Env) (token : List Nat) (receiver : List Char) (amount : Nat)
  | opOnWithdraw (env : Env) (receiver : List Nat) (amount : Nat)

/-- State after one invocation: a panicking call leaves the persisted
state untouched (the NEAR runtime discards the changes of a failed
call). -/
def step (self : TokenFactory) : Op → TokenFactory
  | .opSetTokenBinary env b =>
    match set_token_binary env self b with
    | .ok s => s
    | .error _ => self
  | .opCreateToken env t =>
    match create_token env self t with
    | .ok (s, _) => s
    | .error _ => self
  | .opOnDeposit env t rcv a =>
    match on_deposit env self t rcv a with
    | .ok (s, _) => s
    | .error _ => self
  | .opOnWithdraw env rcv a =>
    match on_withdraw env self rcv a with
    | .ok (s, _) => s
    | .error _ => self

/-- State after a sequence of invocations. -/
def steps (self : TokenFactory) (ops : List Op) : TokenFactory :=
  ops.foldl step self

/-! ### Registry map lemmas -/

theorem mapGet_mapInsert_self (k : List Char) (v : Nat) (l : List (List Char × Nat)) :
    mapGet k (mapInsert k v l) = some v := by
  induction l with
  | nil => simp [mapGet, mapInsert]
  | cons p rest ih =>
    obtain ⟨k2, v2⟩ := p
    by_cases hk : k2 = k <;> simp [mapGet, mapInsert, hk, ih]

theorem mapGet_mapInsert_ne (k k2 : List Char) (v : Nat) (l : List (List Char × Nat))
    (h : k ≠ k2) : mapGet k (mapInsert k2 v l) = mapGet k l := by
  have hne : ¬ (k2 = k) := fun hh => h hh.symm
  induction l with
  | nil => simp [mapGet, mapInsert, hne]
  | cons p rest ih =>
    obtain ⟨k3, v3⟩ := p
    by_cases hk : k3 = k2
    · subst hk
      simp [mapGet, mapInsert, hne]
    · by_cases hk2 : k3 = k <;> simp [mapGet, mapInsert, hk, hk2, ih, h]

theorem countKey_eq_zero (k : List Char) (l : List (List Char × Nat))
    (h : mapGet k l = none) : countKey k l = 0 := by
  induction l with
  | nil => rfl
  | cons p rest ih =>
    obtain ⟨k2, v2⟩ := p
    by_cases hk : k2 = k
    · simp [mapGet, hk] at h
    · simp [mapGet, hk] at h
      simp [countKey, hk, ih h]

theorem countKey_mapInsert_absent (k : List Char) (v : Nat) (l : List (List Char × Nat))
    (h : mapGet k l = none) : countKey k (mapInsert k v l) = 1 := by
  induction l with
  | nil => simp [countKey, mapInsert]
  | cons p rest ih =>
    obtain ⟨k2, v2⟩ := p
    by_cases hk : k2 = k
    · simp [mapGet, hk] at h
    · simp [mapGet, hk] at h
      simp [countKey, mapInsert, hk, ih h]

/-! ### Deposit claims -/

/-- C3: two immediate `on_deposit` calls by the locker for the same
never-before-seen token: the first dispatches the single
create+deploy+new+deposit batch and registers the token at the current
version; the second leaves the state unchanged and dispatches only a
direct deposit call; afterwards the registry holds exactly one entry for
the token's account id. -/
theorem on_deposit_twice (env : Env) (self : TokenFactory) (token : List Nat)
    (r1 r2 : List Char) (a1 a2 : Nat) (bin : List Nat)
    (hauth : env.predecessor_account_id = lockerAccountId self)
    (hbin : self.token_binary = some bin)
    (hnew : mapGet (account_id_from_token_address env token) self.tokens = none) :
    ∃ self1 : TokenFactory,
      on_deposit env self token r1 a1 =
        .ok (self1, .deployAndDeposit (account_id_from_token_address env token) bin r1 a1) ∧
      on_deposit env self1 token r2 a2 =
        .ok (self1, .depositCall (account_id_from_token_address env token) r2 a2) ∧
      countKey (account_id_from_token_address env token) self1.tokens = 1 ∧
      mapGet (account_id_from_token_address env token) self1.tokens =
        some self.token_binary_version := by
  refine ⟨{ self with tokens := mapInsert (account_id_from_token_address env token) self.token_binary_version self.tokens }, ?_, ?_, ?_, ?_⟩
  · simp [on_deposit, assert_locker, hauth, hnew, get_token_binary, hbin]
  · simp [on_deposit, assert_locker, hauth, lockerAccountId,
      mapGet_mapInsert_self]
  · exact countKey_mapInsert_absent _ _ _ hnew
  · exact mapGet_mapInsert_self _ _ _

/-- Concrete state for the C3 witness. -/
def w3Self : TokenFactory :=
  { aurora := ['a'], token_binary := some [7], token_binary_version := 0,
    tokens := [], locker := List.replicate 20 0 }

/-- Concrete environment for the C3 witness: the caller is the locker. -/
def w3Env : Env :=
  { predecessor_account_id := lockerAccountId w3Self, current_account_id := ['f'] }

/-- Concrete token address for the C3 witness. -/
def w3Tok : List Nat := List.replicate 20 1

/-- C3 witness: concrete run of both deposits from an empty registry. -/
theorem on_deposit_twice_witness :
    w3Env.predecessor_account_id = lockerAccountId w3Self ∧
    w3Self.token_binary = some [7] ∧
    mapGet (account_id_from_token_address w3Env w3Tok) w3Self.tokens = none ∧
    (∃ self1 : TokenFactory,
      on_deposit w3Env w3Self w3Tok ['x'] 500 =
        .ok (self1, .deployAndDeposit (account_id_from_token_address w3Env w3Tok) [7] ['x'] 500) ∧
      on_deposit w3Env self1 w3Tok ['y'] 250 =
        .ok (self1, .depositCall (account_id_from_token_address w3Env w3Tok) ['y'] 250) ∧
      countKey (account_id_from_token_address w3Env w3Tok) self1.tokens = 1 ∧
      mapGet (account_id_from_token_address w3Env w3Tok) self1.tokens =
        some w3Self.token_binary_version) :=
  ⟨rfl, rfl, by decide,
    on_deposit_twice w3Env w3Self w3Tok ['x'] ['y'] 500 250 [7] rfl rfl (by decide)⟩

/-- C5: an `on_deposit` call whose caller is not the locker's
representative account fails with `Unauthorized`, and the persisted
state (registry included) is unchanged. -/
theorem on_deposit_unauthorized (env : Env) (self : TokenFactory) (token : List Nat)
    (rcv : List Char) (a : Nat)
    (h : env.predecessor_account_id ≠ lockerAccountId self) :
    on_deposit env self token rcv a = .error .Unauthorized ∧
    step self (.opOnDeposit env token rcv a) = self := by
  have herr : on_deposit env self token rcv a = .error .Unauthorized := by
    simp [on_deposit, assert_locker, h]
  exact ⟨herr, by simp [step, herr]⟩

/-- C5 witness: a concrete non-locker caller is rejected. -/
theorem on_deposit_unauthorized_witness :
    (⟨['e', 'v', 'e'], ['f']⟩ : Env).predecessor_account_id ≠
      lockerAccountId ⟨['a'], none, 0, [], List.replicate 20 0⟩ ∧
    on_deposit ⟨['e', 'v', 'e'], ['f']⟩ ⟨['a'], none, 0, [], List.replicate 20 0⟩
      (List.replicate 20 1) ['x'] 500 = .error .Unauthorized ∧
    step ⟨['a'], none, 0, [], List.replicate 20 0⟩
      (.opOnDeposit ⟨['e', 'v', 'e'], ['f']⟩ (List.replicate 20 1) ['x'] 500) =
      ⟨['a'], none, 0, [], List.replicate 20 0⟩ :=
  ⟨by decide, on_deposit_unauthorized _ _ _ _ _ (by decide)⟩

/-! ### Initialization length check -/

/-- C4 counterexample: a factory identity of 23 characters derives an
account identity of length exactly 64 — the NEAR ledger maximum the
claim refers to — yet `new` rejects it with `IdentityTooLong`, because
the source compares `len + 1 + 40` against 63, not 64. -/
theorem new_at_64_rejected :
    40 + 1 + (List.replicate 23 'a').length = 64 ∧
    new { predecessor_account_id := [], current_account_id := List.replicate 23 'a' }
      [] (List.replicate 20 0) = .error .IdentityTooLong :=
  ⟨by simp, rfl⟩

/-- C4 amended: the initialization check accepts a factory identity
exactly when 40 hex characters plus 1 separator plus the identity length
is at most 63 (one below the NEAR account-id maximum of 64): a derived
account-identity length of 63 passes, 64 fails with `IdentityTooLong`. -/
theorem new_length_check (aurora : List Char) (locker : List Nat) (env : Env) :
    (new env aurora locker =
        .ok { aurora := aurora, token_binary := none, token_binary_version := 0,
              tokens := [], locker := locker } ↔
      env.current_account_id.length + 1 + 40 ≤ 63) ∧
    (new env aurora locker = .error .IdentityTooLong ↔
      ¬ (env.current_account_id.length + 1 + 40 ≤ 63)) := by
  by_cases hlen : env.current_account_id.length + 1 + 40 ≤ 63 <;>
    simp [new, hlen]

/-! ### Withdrawal relay claims -/

theorem hexDecode_none_aux (n : Nat) : ∀ l : List Char, l.length ≤ n →
    (∃ c ∈ l, hexDigitVal c = none) → hexDecode l = none := by
  induction n with
  | zero =>
    rintro l hl ⟨c, hc, -⟩
    cases l with
    | nil => cases hc
    | cons a t => simp at hl
  | succ n ih =>
    rintro l hl ⟨c, hc, hval⟩
    cases l with
    | nil => cases hc
    | cons c1 t =>
      cases t with
      | nil => rfl
      | cons c2 rest =>
        have hrest : rest.length ≤ n := by simp at hl; omega
        rcases List.mem_cons.mp hc with h1 | hc2
        · subst h1
          simp only [hexDecode]
          rw [hval]
        · rcases List.mem_cons.mp hc2 with h2 | hc3
          · subst h2
            simp only [hexDecode]
            rw [hval]
            cases h1 : hexDigitVal c1 <;> rfl
          · simp only [hexDecode]
            rw [ih rest hrest ⟨c, hc3, hval⟩]
            cases h1 : hexDigitVal c1 <;> cases h2 : hexDigitVal c2 <;> rfl

theorem hexDecode_eq_none (l : List Char) (h : ∃ c ∈ l, hexDigitVal c = none) :
    hexDecode l = none :=
  hexDecode_none_aux l.length l le_rfl h

/-- C6: an `on_withdraw` call whose caller identity is shorter than 40
characters, or whose first 40 characters are not all valid hex, fails
with `MalformedCallerIdentity` and dispatches nothing. -/
theorem on_withdraw_malformed (env : Env) (self : TokenFactory) (rcv : List Nat)
    (a : Nat)
    (h : env.predecessor_account_id.length < 40 ∨
      ∃ c ∈ env.predecessor_account_id.take 40, hexDigitVal c = none) :
    on_withdraw env self rcv a = .error .MalformedCallerIdentity := by
  have hdec : address_from_token_account_id env.predecessor_account_id = none := by
    by_cases hlen : env.predecessor_account_id.length < 40
    · simp [address_from_token_account_id, hlen]
    · rcases h with hl | hbad
      · exact absurd hl hlen
      · simp [address_from_token_account_id, hlen, hexDecode_eq_none _ hbad]
  simp [on_withdraw, hdec]

/-- C6 witness: a caller id whose first characters are not hex. -/
theorem on_withdraw_malformed_witness :
    ((⟨List.replicate 40 'z', ['f']⟩ : Env).predecessor_account_id.length < 40 ∨
      ∃ c ∈ (⟨List.replicate 40 'z', ['f']⟩ : Env).predecessor_account_id.take 40,
        hexDigitVal c = none) ∧
    on_withdraw ⟨List.replicate 40 'z', ['f']⟩ w3Self [] 5 =
      .error .MalformedCallerIdentity :=
  ⟨by decide, on_withdraw_malformed _ _ _ _ (by decide)⟩

/-! ### Frame lemmas for the entry points -/

theorem create_token_ok_state (env : Env) (self s : TokenFactory) (t : List Nat)
    (act : PromiseAction) (h : create_token env self t = .ok (s, act)) : s = self := by
  unfold create_token at h
  split at h
  · exact absurd h (by simp)
  · split at h
    · exact absurd h (by simp)
    · simp at h
      exact h.1.symm

theorem on_withdraw_ok_state (env : Env) (self s : TokenFactory) (rcv : List Nat)
    (a : Nat) (act : PromiseAction)
    (h : on_withdraw env self rcv a = .ok (s, act)) : s = self := by
  unfold on_withdraw at h
  split at h
  · exact absurd h (by simp)
  · simp at h
    exact h.1.symm

theorem on_deposit_ok_cases (env : Env) (self s : TokenFactory) (t : List Nat)
    (rcv : List Char) (a : Nat) (act : PromiseAction)
    (h : on_deposit env self t rcv a = .ok (s, act)) :
    s = self ∨
    (mapGet (account_id_from_token_address env t) self.tokens = none ∧
     s = { self with tokens := mapInsert (account_id_from_token_address env t) self.token_binary_version self.tokens }) := by
  unfold on_deposit at h
  cases hassert : assert_locker env self with
  | error e => simp [hassert] at h
  | ok u =>
    simp only [hassert] at h
    cases hmap : mapGet (account_id_from_token_address env t) self.tokens with
    | none =>
      simp only [hmap] at h
      cases hbin : get_token_binary self with
      | error e => simp [hbin] at h
      | ok binary =>
        simp only [hbin] at h
        simp at h
        exact Or.inr ⟨rfl, h.1.symm⟩
    | some v =>
      simp only [hmap] at h
      simp at h
      exact Or.inl h.1.symm

theorem step_preserves_entry (self : TokenFactory) (op : Op) (k : List Char) (v : Nat)
    (h : mapGet k self.tokens = some v) :
    mapGet k (step self op).tokens = some v := by
  cases op with
  | opSetTokenBinary env b =>
    by_cases hc : env.predecessor_account_id = env.current_account_id <;>
      simp [step, set_token_binary, hc, h]
  | opCreateToken env t =>
    cases hres : create_token env self t with
    | error e => simp [step, hres, h]
    | ok p =>
      obtain ⟨s, act⟩ := p
      rw [create_token_ok_state env self s t act hres] at hres
      simp [step, hres, h]
  | opOnDeposit env t rcv a =>
    cases hres : on_deposit env self t rcv a with
    | error e => simp [step, hres, h]
    | ok p =>
      obtain ⟨s, act⟩ := p
      rcases on_deposit_ok_cases env self s t rcv a act hres with hsame | ⟨hnone, hins⟩
      · simp [step, hres, hsame, h]
      · have hk : k ≠ account_id_from_token_address env t := by
          intro hk
          rw [hk, hnone] at h
          exact Option.noConfusion h
        simp [step, hres, hins, mapGet_mapInsert_ne k _ _ _ hk, h]
  | opOnWithdraw env rcv a =>
    cases hres : on_withdraw env self rcv a with
    | error e => simp [step, hres, h]
    | ok p =>
      obtain ⟨s, act⟩ := p
      rw [on_withdraw_ok_state env self s rcv a act hres] at hres
      simp [step, hres, h]

theorem steps_preserves_entry (ops : List Op) (k : List Char) (v : Nat) :
    ∀ self : TokenFactory, mapGet k self.tokens = some v →
      mapGet k (steps self ops).tokens = some v := by
  induction ops with
  | nil => exact fun self h => h
  | cons op rest ih =>
    intro self h
    exact ih (step self op) (step_preserves_entry self op k v h)

/-- C7: the registry is append-only.  Once an entry `(k, v)` exists, no
sequence of entry-point invocations deletes it or changes its version;
in particular `set_token_binary` bumps the global version counter but
leaves the registry untouched. -/
theorem registry_append_only (self : TokenFactory) (ops : List Op) (k : List Char)
    (v : Nat) (h : mapGet k self.tokens = some v) :
    mapGet k (steps self ops).tokens = some v ∧
    ∀ (env : Env) (b : List Nat),
      (step self (.opSetTokenBinary env b)).tokens = self.tokens := by
  refine ⟨steps_preserves_entry ops k v self h, ?_⟩
  intro env b
  by_cases hc : env.predecessor_account_id = env.current_account_id <;>
    simp [step, set_token_binary, hc]

/-- Concrete state for the C7 witness: the registry already holds the
entry for the C3 witness token. -/
def w7Self : TokenFactory :=
  { w3Self with tokens := mapInsert (account_id_from_token_address w3Env w3Tok) 0 [] }

/-- C7 witness: a concrete registry entry survives a binary upgrade, a
second deposit and a withdraw call. -/
theorem registry_append_only_witness :
    mapGet (account_id_from_token_address w3Env w3Tok) w7Self.tokens = some 0 ∧
    mapGet (account_id_from_token_address w3Env w3Tok)
      (steps w7Self
        [.opSetTokenBinary ⟨['f'], ['f']⟩ [9],
         .opOnDeposit w3Env w3Tok ['x'] 4,
         .opOnWithdraw ⟨List.replicate 40 'z', ['f']⟩ [] 5]).tokens = some 0 ∧
    ∀ (env : Env) (b : List Nat),
      (step w7Self (.opSetTokenBinary env b)).tokens = w7Self.tokens :=
  ⟨by decide,
    registry_append_only w7Self
      [.opSetTokenBinary ⟨['f'], ['f']⟩ [9],
       .opOnDeposit w3Env w3Tok ['x'] 4,
       .opOnWithdraw ⟨List.replicate 40 'z', ['f']⟩ [] 5]
      (account_id_from_token_address w3Env w3Tok) 0 (by decide)⟩

/-- C9: `create_token` never modifies the registry: a successful call
returns the state unchanged, so for a token that was never deposited the
registry still has no entry and a subsequent `on_deposit` takes the
deploy branch, dispatching a second create+deploy+new sequence for the
account `create_token` already created. -/
theorem create_token_no_register (env : Env) (self : TokenFactory) (token : List Nat)
    (rcv : List Char) (a : Nat) (bin : List Nat)
    (hauth : env.predecessor_account_id = lockerAccountId self)
    (hbin : self.token_binary = some bin)
    (hnone : mapGet (account_id_from_token_address env token) self.tokens = none) :
    create_token env self token =
      .ok (self, .deployOnly (account_id_from_token_address env token) bin) ∧
    on_deposit env self token rcv a =
      .ok ({ self with tokens := mapInsert (account_id_from_token_address env token) self.token_binary_version self.tokens },
           .deployAndDeposit (account_id_from_token_address env token) bin rcv a) := by
  constructor
  · simp [create_token, assert_locker, hauth, get_token_binary, hbin]
  · simp [on_deposit, assert_locker, hauth, hnone, get_token_binary, hbin]

/-- C9 witness: concrete `create_token` followed by `on_deposit`. -/
theorem create_token_no_register_witness :
    w3Env.predecessor_account_id = lockerAccountId w3Self ∧
    w3Self.token_binary = some [7] ∧
    mapGet (account_id_from_token_address w3Env w3Tok) w3Self.tokens = none ∧
    (create_token w3Env w3Self w3Tok =
      .ok (w3Self, .deployOnly (account_id_from_token_address w3Env w3Tok) [7]) ∧
    on_deposit w3Env w3Self w3Tok ['x'] 500 =
      .ok ({ w3Self with tokens := mapInsert (account_id_from_token_address w3Env w3Tok) w3Self.token_binary_version w3Self.tokens },
           .deployAndDeposit (account_id_from_token_address w3Env w3Tok) [7] ['x'] 500)) :=
  ⟨rfl, rfl, by decide,
    create_token_no_register w3Env w3Self w3Tok ['x'] 500 [7] rfl rfl (by decide)⟩

/-- C10: `on_withdraw` modifies no contract state, for every caller
identity, receiver address and amount: whether the call returns or
fails, the persisted state after the invocation is exactly the state
before it, and on success the returned state has the same registry,
binary artifact, version counter, locker and aurora account as
before. -/
theorem on_withdraw_no_state_change (env : Env) (self : TokenFactory)
    (rcv : List Nat) (a : Nat) :
    step self (.opOnWithdraw env rcv a) = self ∧
    ∀ (s : TokenFactory) (act : PromiseAction),
      on_withdraw env self rcv a = .ok (s, act) →
      s.tokens = self.tokens ∧ s.token_binary = self.token_binary ∧
      s.token_binary_version = self.token_binary_version ∧
      s.locker = self.locker ∧ s.aurora = self.aurora := by
  constructor
  · cases hres : on_withdraw env self rcv a with
    | error e => simp [step, hres]
    | ok p =>
      obtain ⟨s, act⟩ := p
      simp [step, hres, on_withdraw_ok_state env self s rcv a act hres]
  · intro s act h
    have hs : s = self := on_withdraw_ok_state env self s rcv a act h
    subst hs
    exact ⟨rfl, rfl, rfl, rfl, rfl⟩

/-- C10 witness: a concrete withdraw call from a well-formed token
account leaves every state component unchanged, and a concrete failing
call (one-character caller identity) leaves the persisted state
unchanged too. -/
theorem on_withdraw_no_state_change_witness :
    on_withdraw ⟨List.replicate 40 '0', ['f']⟩ w3Self [] 5 =
      .ok (w3Self, .auroraCall w3Self.aurora (List.replicate 20 0)
        (abi_encode_withdraw (List.replicate 20 0) [] 5)) ∧
    step w3Self (.opOnWithdraw ⟨List.replicate 40 '0', ['f']⟩ [] 5) = w3Self ∧
    (w3Self.tokens = w3Self.tokens ∧ w3Self.token_binary = w3Self.token_binary ∧
     w3Self.token_binary_version = w3Self.token_binary_version ∧
     w3Self.locker = w3Self.locker ∧ w3Self.aurora = w3Self.aurora) ∧
    on_withdraw ⟨['z'], ['f']⟩ w3Self [] 5 = .error .MalformedCallerIdentity ∧
    step w3Self (.opOnWithdraw ⟨['z'], ['f']⟩ [] 5) = w3Self :=
  ⟨rfl,
    (on_withdraw_no_state_change ⟨List.replicate 40 '0', ['f']⟩ w3Self [] 5).1,
    (on_withdraw_no_state_change ⟨List.replicate 40 '0', ['f']⟩ w3Self [] 5).2 w3Self
      (.auroraCall w3Self.aurora (List.replicate 20 0)
        (abi_encode_withdraw (List.replicate 20 0) [] 5)) rfl,
    rfl,
    (on_withdraw_no_state_change ⟨['z'], ['f']⟩ w3Self [] 5).1⟩

/-! ### Keccak-256 and the pinned selector

The source pins `WITHDRAW_SELECTOR` and its test recomputes it with
`ethabi::short_signature`, i.e. the first four bytes of the Keccak-256
hash (legacy padding, as used by Ethereum) of the canonical signature
string.  The hash is implemented here from the Keccak specification:
state of 25 lanes of 64 bits, 24 rounds of theta, rho+pi, chi, iota. -/

namespace Keccak

/-- One step of the `rc` LFSR of the Keccak specification: an 8-bit
register with feedback polynomial `x^8 + x^6 + x^5 + x^4 + 1`
(feedback mask 0x71 applied when the top bit shifts out). -/
def lfsrStep (r : Nat) : Nat := ((r * 2) ^^^ ((r / 128) * 0x71)) % 256

/-- The LFSR register after `t` steps from its initial value 1; `rc(t)`
of the specification is its low bit. -/
def lfsr (t : Nat) : Nat := lfsrStep^[t] 1

/-- Round constants of Keccak-f[1600], computed as in the specification:
bit `2 ^ j - 1` of constant `i` is `rc(7 i + j)`. -/
def RC : List Nat :=
  (List.range 24).map (fun i =>
    ((List.range 7).map (fun j => lfsr (7 * i + j) % 2 * 2 ^ (2 ^ j - 1))).sum)

/-- Lane visited at step `t` of the rho walk: start at `(1, 0)`, step
`(x, y)` to `(y, (2 x + 3 y) mod 5)`. -/
def rhoPos (t : Nat) : Nat × Nat :=
  (fun p : Nat × Nat => (p.2, (2 * p.1 + 3 * p.2) % 5))^[t] (1, 0)

/-- Rotation offsets of the rho step, indexed by `x + 5 * y` and
computed as in the specification: the lane visited at step `t` rotates
by the triangular number `(t + 1)(t + 2) / 2 mod 64`, lane `(0, 0)` not
at all. -/
def rotOff : List Nat :=
  (List.range 25).map (fun i =>
    (((List.range 24).find? (fun t => (rhoPos t).1 + 5 * (rhoPos t).2 == i)).map
      (fun t => (t + 1) * (t + 2) / 2 % 64)).getD 0)

/-- Lane `(x, y)` of a 25-word state. -/
def lane (A : List Nat) (x y : Nat) : Nat := A.getD (x + 5 * y) 0

/-- Left rotation of a 64-bit word. -/
def rotl64 (x n : Nat) : Nat := (x <<< n ||| x >>> (64 - n)) % 2 ^ 64

/-- Theta step: each lane is xored with the parities of two columns. -/
def theta (A : List Nat) : List Nat :=
  let C := (List.range 5).map
    (fun x => lane A x 0 ^^^ lane A x 1 ^^^ lane A x 2 ^^^ lane A x 3 ^^^ lane A x 4)
  let D := (List.range 5).map
    (fun x => C.getD ((x + 4) % 5) 0 ^^^ rotl64 (C.getD ((x + 1) % 5) 0) 1)
  (List.range 25).map (fun i => A.getD i 0 ^^^ D.getD (i % 5) 0)

/-- Combined rho and pi steps: lane `(X, Y)` of the result is lane
`((X + 3 Y) mod 5, X)` of the input, rotated by its rho offset. -/
def rhoPi (A : List Nat) : List Nat :=
  (List.range 25).map (fun i =>
    let x := (i % 5 + 3 * (i / 5)) % 5
    let y := i % 5
    rotl64 (lane A x y) (rotOff.getD (x + 5 * y) 0))

/-- Chi step: `B[x,y] ^ (~B[x+1,y] & B[x+2,y])` along rows. -/
def chi (B : List Nat) : List Nat :=
  (List.range 25).map (fun i =>
    lane B (i % 5) (i / 5) ^^^
      ((lane B ((i % 5 + 1) % 5) (i / 5) ^^^ (2 ^ 64 - 1)) &&& lane B ((i % 5 + 2) % 5) (i / 5)))

/-- Iota step: xor the round constant into lane `(0, 0)`. -/
def iotaStep (A : List Nat) (rc : Nat) : List Nat :=
  (A.getD 0 0 ^^^ rc) :: A.drop 1

/-- One round of Keccak-f[1600]. -/
def keccakRound (A : List Nat) (rc : Nat) : List Nat :=
  iotaStep (chi (rhoPi (theta A))) rc

/-- Keccak-f[1600]: the 24 rounds. -/
def keccakF (A : List Nat) : List Nat := RC.foldl keccakRound A

/-- Legacy multi-rate padding at rate 136 for a single-block message of
at most 134 bytes (the signature hashed here has 33): append `0x01`,
zero-fill, set the top bit of the last rate byte. -/
def pad (msg : List Nat) : List Nat :=
  msg ++ [0x01] ++ List.replicate (134 - msg.length) 0 ++ [0x80]

/-- Load a padded block into 25 little-endian 64-bit lanes (capacity
lanes read past the 136 block bytes and stay zero). -/
def bytesToLanes (bs : List Nat) : List Nat :=
  (List.range 25).map
    (fun i => ((List.range 8).map (fun j => bs.getD (8 * i + j) 0 * 256 ^ j)).sum)

/-- Keccak-256 with legacy padding (the hash used for Ethereum function
selectors) of a message of at most 134 bytes: the 32 output bytes. -/
def keccak256 (msg : List Nat) : List Nat :=
  let A := keccakF (bytesToLanes (pad msg))
  (List.range 32).map (fun i => A.getD (i / 8) 0 / 256 ^ (i % 8) % 256)

end Keccak

set_option maxRecDepth 100000 in
/-- Known-answer test for the Keccak-256 implementation above: the hash
of the empty message is the standard value
c5d24601...5d85a470. -/
theorem keccak256_empty_vector :
    Keccak.keccak256 [] =
      [197, 210, 70, 1, 134, 247, 35, 60, 146, 126, 125, 178, 220, 199, 3, 192,
       229, 0, 182, 83, 202, 130, 39, 59, 123, 250, 216, 4, 93, 133, 164, 112] := by
  decide

/-- ASCII bytes of the canonical signature string
"withdraw(address,address,uint256)". -/
def withdrawSignature : List Nat :=
  "withdraw(address,address,uint256)".data.map Char.toNat

set_option maxRecDepth 100000 in
/-- C8: the pinned 4-byte selector `[0xd9, 0xca, 0xed, 0x12]` equals the
first four bytes of the Keccak-256 hash of the canonical signature
string "withdraw(address,address,uint256)". -/
theorem withdraw_selector_correct :
    (Keccak.keccak256 withdrawSignature).take 4 = WITHDRAW_SELECTOR ∧
    withdrawSignature.length = 33 := by
  constructor <;> decide

end NTF
